import Mathlib

/-!
Verification of the TaskScheduler in-memory scheduling engine
(`server/algorithms.ts` over the data model of `shared/schema.ts`).

Times are modeled as epoch milliseconds (`Int`), matching
`new Date(x).getTime()`.  All score arithmetic performed by the engine on
such values is exact in IEEE-754 doubles for time values in the JavaScript
`Date` range, so `Int` is a faithful model of the number handling in the
scoring, conflict and rescheduling code.  `priority` and `status` are
`varchar` columns in the schema, so they are modeled as `String`.
-/

namespace TS

/-- The `tasks` row type of `shared/schema.ts` (`Task`).  `deadline`,
`createdAt`, `completedAt` and `scheduledStart` are timestamps in epoch
milliseconds. -/
structure Task where
  id : String
  name : String
  description : Option String
  deadline : Int
  priority : String
  estimatedDuration : Int
  status : String
  createdAt : Int
  completedAt : Option Int
  scheduledStart : Option Int
deriving DecidableEq, Repr, Inhabited

/-- The completion-history record shape consumed by `calculateAnalytics`
and `generateRecommendations`. -/
structure CompletionRecord where
  completedAt : Int
  actualDuration : Option Int
  wasOverdue : Bool
deriving DecidableEq, Repr, Inhabited

/-- The `PRIORITY_VALUES` lookup table of `server/algorithms.ts`.  An
absent key yields `none`, modeling JavaScript `undefined`. -/
def PRIORITY_VALUES (p : String) : Option Int :=
  if p == "high" then some 3
  else if p == "medium" then some 2
  else if p == "low" then some 1
  else none

/-- JavaScript `>` between two possibly-`undefined` numbers: comparison
with `undefined` is `false` (NaN semantics). -/
def jsGT : Option Int → Option Int → Bool
  | some a, some b => decide (b < a)
  | _, _ => false

/-- The priority weight of a task: `PRIORITY_VALUES[task.priority] || 0`. -/
def priorityWeight (t : Task) : Int :=
  (PRIORITY_VALUES t.priority).getD 0

/-- The composite score of `PriorityQueue.getTaskPriority`:
`priorityValue * 1e15 - deadlineValue`. -/
def getTaskPriority (task : Task) : Int :=
  priorityWeight task * 1000000000000000 - task.deadline

/-- Indexing of the backing array: `heap[i]`, total via a default value as
in the source, where indices are always in bounds. -/
def nth (l : List Task) (i : Nat) : Task :=
  l.getD i default

/-- The destructuring swap
`[heap[i], heap[j]] = [heap[j], heap[i]]` used by both heapify passes. -/
def swap (l : List Task) (i j : Nat) : List Task :=
  (l.set i (nth l j)).set j (nth l i)

namespace PriorityQueue

/-- First half of the `largest` selection of `heapifyDown`: compare with
the left child `2*index+1`. -/
def largestOfLeft (heap : List Task) (index : Nat) : Nat :=
  if 2 * index + 1 < heap.length ∧
      getTaskPriority (nth heap index) < getTaskPriority (nth heap (2 * index + 1))
  then 2 * index + 1 else index

/-- Second half of the `largest` selection of `heapifyDown`: compare the
current `largest` with the right child `2*index+2`. -/
def largest (heap : List Task) (index : Nat) : Nat :=
  if 2 * index + 2 < heap.length ∧
      getTaskPriority (nth heap (largestOfLeft heap index)) < getTaskPriority (nth heap (2 * index + 2))
  then 2 * index + 2 else largestOfLeft heap index

/-- `heapifyDown` (sink) of `PriorityQueue`: swap with the larger child
while some child has a strictly greater score. -/
def heapifyDown (heap : List Task) (index : Nat) : List Task :=
  if h : largest heap index = index then heap
  else heapifyDown (swap heap index (largest heap index)) (largest heap index)
termination_by heap.length - index
decreasing_by
  have hb : index < largest heap index ∧ largest heap index < heap.length := by
    revert h
    unfold largest largestOfLeft
    split_ifs <;> intro hne <;> omega
  have hl : (swap heap index (largest heap index)).length = heap.length := by
    simp [swap]
  omega

/-- `heapifyUp` (bubble) of `PriorityQueue`: swap with the parent while
the score strictly exceeds the parent's. -/
def heapifyUp (heap : List Task) (index : Nat) : List Task :=
  if 0 < index then
    if getTaskPriority (nth heap index) ≤ getTaskPriority (nth heap ((index - 1) / 2)) then
      heap
    else
      heapifyUp (swap heap index ((index - 1) / 2)) ((index - 1) / 2)
  else heap
termination_by index
decreasing_by omega

/-- The body of the `buildMaxHeap` loop, run for indices `i, i-1, ..., 0`. -/
def buildLoop : List Task → Nat → List Task
  | heap, 0 => heapifyDown heap 0
  | heap, i + 1 => buildLoop (heapifyDown heap (i + 1)) i

/-- `buildMaxHeap`: heapify down every index from `floor(n/2) - 1` down to
`0`; for `n ≤ 1` the loop body never runs. -/
def buildMaxHeap (heap : List Task) : List Task :=
  if 1 ≤ heap.length / 2 then buildLoop heap (heap.length / 2 - 1) else heap

/-- The `PriorityQueue` constructor: keep only `pending` tasks, then build
the max heap. -/
def construct (tasks : List Task) : List Task :=
  buildMaxHeap (tasks.filter (fun t => t.status == "pending"))

/-- `insert`: push the task at the end and heapify up from the last index. -/
def insert (heap : List Task) (task : Task) : List Task :=
  heapifyUp (heap ++ [task]) ((heap ++ [task]).length - 1)

/-- `extractMax`: return the root and the remaining heap.  An empty heap
yields `none`; a singleton is popped; otherwise the last element replaces
the root which is then sunk. -/
def extractMax (heap : List Task) : Option Task × List Task :=
  if heap.length = 0 then (none, heap)
  else if heap.length = 1 then (some (nth heap 0), heap.dropLast)
  else
    (some (nth heap 0),
      heapifyDown ((heap.dropLast).set 0 (nth heap (heap.length - 1))) 0)

/-- The mutation `this.heap[index].priority = newPriority`. -/
def setPriority (t : Task) (p : String) : Task :=
  { t with priority := p }

/-- `updatePriority`: locate the task by id (first match), mutate its
priority, then heapify up if the score increased, down otherwise.
A missing id is a silent no-op. -/
def updatePriority (heap : List Task) (taskId : String) (newPriority : String) : List Task :=
  match heap.findIdx? (fun t => t.id == taskId) with
  | none => heap
  | some index =>
    if getTaskPriority (nth heap index) < getTaskPriority (setPriority (nth heap index) newPriority)
    then heapifyUp (heap.set index (setPriority (nth heap index) newPriority)) index
    else heapifyDown (heap.set index (setPriority (nth heap index) newPriority)) index

/-- `size`: the number of tasks currently in the heap. -/
def size (heap : List Task) : Nat :=
  heap.length

/-- `getTasks`: a copy of the backing array. -/
def getTasks (heap : List Task) : List Task :=
  heap

/-- One public mutation of the `PriorityQueue` object. -/
inductive HeapOp where
  | insertOp (t : Task)
  | extractMaxOp
  | updatePriorityOp (taskId : String) (newPriority : String)
deriving DecidableEq, Repr

/-- Apply one heap operation to the backing array. -/
def applyOp (heap : List Task) : HeapOp → List Task
  | .insertOp t => insert heap t
  | .extractMaxOp => (extractMax heap).2
  | .updatePriorityOp taskId newPriority => updatePriority heap taskId newPriority

/-- Apply a sequence of heap operations in order. -/
def applyOps (heap : List Task) (ops : List HeapOp) : List Task :=
  ops.foldl applyOp heap

/-- Repeated extraction with explicit fuel; `extractMax` removes exactly
one element per step, so fuel `heap.length` drains the heap completely. -/
def extractAllFuel : Nat → List Task → List Task
  | 0, _ => []
  | fuel + 1, heap =>
    match extractMax heap with
    | (none, _) => []
    | (some t, rest) => t :: extractAllFuel fuel rest

/-- Repeatedly call `extractMax` until the heap is empty, collecting the
extracted tasks in order. -/
def extractAll (heap : List Task) : List Task :=
  extractAllFuel heap.length heap

end PriorityQueue

/-- Result shape of `detectConflicts` (`ConflictDetectionResult` in
`shared/schema.ts`). -/
structure ConflictDetectionResult where
  hasConflict : Bool
  conflictingTasks : List Task
  recommendations : List String
deriving DecidableEq, Repr

/-- The interval-overlap test of `detectConflicts`, on the occupied
intervals `[deadline - estimatedDuration*60000, deadline]`. -/
def overlaps (task1 task2 : Task) : Bool :=
  let start1 := task1.deadline - task1.estimatedDuration * 60000
  let end1 := task1.deadline
  let start2 := task2.deadline - task2.estimatedDuration * 60000
  let end2 := task2.deadline
  (decide (start1 < end2) && decide (end1 > start2)) ||
    (decide (start2 < end1) && decide (end2 > start1))

/-- The template literal emitted by `detectConflicts`, naming `candidate`
as the task to reschedule. -/
def recommendationText (candidate higher : Task) : String :=
  "Consider rescheduling \"" ++ candidate.name ++ "\" (" ++ candidate.priority ++
    " priority) as it conflicts with higher priority task \"" ++ higher.name ++ "\""

/-- The guarded push
`if (!conflicts.find(t => t.id === task.id)) conflicts.push(task)`. -/
def pushUnique (conflicts : List Task) (task : Task) : List Task :=
  if conflicts.any (fun t => t.id == task.id) then conflicts else conflicts ++ [task]

/-- The recommendation emitted for an overlapping pair: reschedule `task2`
when `task1` has strictly greater priority value, else reschedule `task1`. -/
def conflictRecommendation (task1 task2 : Task) : String :=
  if jsGT (PRIORITY_VALUES task1.priority) (PRIORITY_VALUES task2.priority)
  then recommendationText task2 task1
  else recommendationText task1 task2

/-- The body of the inner pairwise loop of `detectConflicts` for the pair
`(task1, task2)`, `task1` being the task at the earlier scan index. -/
def conflictStep (acc : List Task × List String) (task1 task2 : Task) :
    List Task × List String :=
  if overlaps task1 task2 then
    (pushUnique (pushUnique acc.1 task1) task2,
      acc.2 ++ [conflictRecommendation task1 task2])
  else acc

/-- The inner loop of `detectConflicts`: pair `task1` with every later task. -/
def innerScan (task1 : Task) (rest : List Task) (acc : List Task × List String) :
    List Task × List String :=
  rest.foldl (fun acc task2 => conflictStep acc task1 task2) acc

/-- The outer loop of `detectConflicts` over all pairs `i < j`. -/
def outerScan : List Task → List Task × List String → List Task × List String
  | [], acc => acc
  | task1 :: rest, acc => outerScan rest (innerScan task1 rest acc)

/-- `detectConflicts` of `server/algorithms.ts`. -/
def detectConflicts (tasks : List Task) : ConflictDetectionResult :=
  let pendingTasks := tasks.filter (fun t => t.status == "pending")
  let result := outerScan pendingTasks ([], [])
  { hasConflict := decide (0 < result.1.length)
    conflictingTasks := result.1
    recommendations := result.2 }

/-- The body of the `rescheduleTask` scan over one existing task: push the
proposed time past the existing task when the intervals overlap. -/
def rescheduleStep (taskDuration : Int) (proposedTime : Int) (existingTask : Task) : Int :=
  let existingStart := existingTask.deadline - existingTask.estimatedDuration * 60000
  let existingEnd := existingTask.deadline
  if proposedTime < existingEnd ∧ proposedTime + taskDuration > existingStart
  then existingEnd + 60000
  else proposedTime

/-- `rescheduleTask` of `server/algorithms.ts`: greedy forward scan over
the other pending tasks sorted ascending by deadline, starting from the
task's current deadline; the returned timestamp is the final proposed
time plus the task's duration in milliseconds. -/
def rescheduleTask (task : Task) (allTasks : List Task) : Int :=
  let taskDuration := task.estimatedDuration * 60000
  let sortedTasks :=
    (allTasks.filter (fun t => t.id != task.id && t.status == "pending")).mergeSort
      (fun a b => decide (a.deadline ≤ b.deadline))
  (sortedTasks.foldl (rescheduleStep taskDuration) task.deadline) + taskDuration

/-- `sortByDeadline`: stable ascending sort by deadline (JavaScript
`Array.prototype.sort` with comparator `a.deadline - b.deadline`). -/
def sortByDeadline (tasks : List Task) : List Task :=
  tasks.mergeSort (fun a b => decide (a.deadline ≤ b.deadline))

/-- Output record of `calculateAnalytics` (`AnalyticsData` in
`shared/schema.ts`); rational fields model the exact values of the
JavaScript arithmetic.  Trend entries are keyed by UTC day number
instead of the ISO date string. -/
structure AnalyticsData where
  totalTasks : Nat
  completedTasks : Nat
  overdueTasks : Nat
  pendingTasks : Nat
  completionRate : ℚ
  averageCompletionTime : ℚ
  productivityScore : ℚ
  tasksByPriorityHigh : Nat
  tasksByPriorityMedium : Nat
  tasksByPriorityLow : Nat
  completionTrend : List (Int × Nat × Nat)
deriving DecidableEq, Repr

/-- `calculateAnalytics` of `server/algorithms.ts`, with the current time
threaded explicitly; days are modeled as UTC day numbers
(`floor(ms / 86400000)`). -/
def calculateAnalytics (tasks : List Task) (completionHistory : List CompletionRecord)
    (now : Int) : AnalyticsData :=
  let totalTasks := tasks.length
  let completedTasks := (tasks.filter (fun t => t.status == "completed")).length
  let overdueTasks :=
    (tasks.filter (fun t => t.status == "overdue" ||
      (t.status == "pending" && decide (t.deadline < now)))).length
  let pendingTasks :=
    (tasks.filter (fun t => t.status == "pending" && decide (t.deadline ≥ now))).length
  let completionRate : ℚ :=
    if 0 < totalTasks then (completedTasks : ℚ) / (totalTasks : ℚ) * 100 else 0
  let durations := completionHistory.filterMap (fun h => h.actualDuration)
  let averageCompletionTime : ℚ :=
    if 0 < durations.length
    then ((durations.foldl (fun sum d => sum + d) 0 : Int) : ℚ) / (durations.length : ℚ)
    else 0
  let productivityScore : ℚ :=
    completionRate * (1 - (overdueTasks : ℚ) / (max totalTasks 1 : ℚ)) * 100
  let today := Int.fdiv now 86400000
  let last7Days := (List.range 7).map (fun i => today - (6 - (i : Int)))
  let completionTrend := last7Days.map (fun date =>
    let dayHistory := completionHistory.filter
      (fun h => Int.fdiv h.completedAt 86400000 == date)
    (date,
      (dayHistory.filter (fun h => !h.wasOverdue)).length,
      (dayHistory.filter (fun h => h.wasOverdue)).length))
  { totalTasks := totalTasks
    completedTasks := completedTasks
    overdueTasks := overdueTasks
    pendingTasks := pendingTasks
    completionRate := completionRate
    averageCompletionTime := averageCompletionTime
    productivityScore := productivityScore
    tasksByPriorityHigh := (tasks.filter (fun t => t.priority == "high")).length
    tasksByPriorityMedium := (tasks.filter (fun t => t.priority == "medium")).length
    tasksByPriorityLow := (tasks.filter (fun t => t.priority == "low")).length
    completionTrend := completionTrend }

/-- A timestamp representable as a JavaScript `Date` time value: magnitude
at most `8.64e15` milliseconds (ECMA-262 time value range). -/
def representableDeadline (d : Int) : Prop :=
  -8640000000000000 ≤ d ∧ d ≤ 8640000000000000

/-- Helper building a task record with the fields the engine reads. -/
def mkTask (id : String) (deadline : Int) (priority : String)
    (estimatedDuration : Int) (status : String) : Task :=
  { id := id, name := id, description := none, deadline := deadline,
    priority := priority, estimatedDuration := estimatedDuration,
    status := status, createdAt := 0, completedAt := none, scheduledStart := none }

/-- Concrete pending task: medium priority, deadline at epoch 0,
60-minute duration. -/
def taskM0 : Task := mkTask "A" 0 "medium" 60 "pending"

/-- Concrete pending task: medium priority, deadline 30 minutes after
epoch, 60-minute duration. -/
def taskM30 : Task := mkTask "B" 1800000 "medium" 60 "pending"

/-- Concrete pending task: high priority, deadline 1 hour after epoch. -/
def taskH : Task := mkTask "H" 3600000 "high" 60 "pending"

/-- Concrete pending high-priority task whose deadline is the largest
representable JavaScript date (+8.64e15 ms). -/
def taskHighFar : Task := mkTask "far" 8640000000000000 "high" 60 "pending"

/-- Concrete pending low-priority task with deadline at epoch 0. -/
def taskLowNear : Task := mkTask "near" 0 "low" 60 "pending"

/-- Heap order on every parent/child edge whose parent index is at least
`start`; `heapFrom heap 0` is the full max-heap property. -/
def heapFrom (heap : List Task) (start : Nat) : Prop :=
  ∀ child, 0 < child → child < heap.length → start ≤ (child - 1) / 2 →
    getTaskPriority (nth heap child) ≤ getTaskPriority (nth heap ((child - 1) / 2))

/-- The max-heap property exactly as the specification states it: every
node dominates both of its existing children. -/
def maxHeapProperty (heap : List Task) : Prop :=
  ∀ i : Nat,
    (2 * i + 1 < heap.length →
      getTaskPriority (nth heap (2 * i + 1)) ≤ getTaskPriority (nth heap i)) ∧
    (2 * i + 2 < heap.length →
      getTaskPriority (nth heap (2 * i + 2)) ≤ getTaskPriority (nth heap i))


/-! ### Index and swap lemmas -/

theorem nth_eq_getElem (l : List Task) (i : Nat) (h : i < l.length) : nth l i = l[i] := by
  simp [nth, List.getD_eq_getElem?_getD, List.getElem?_eq_getElem h]

theorem nth_set_self (l : List Task) (i : Nat) (x : Task) (h : i < l.length) :
    nth (l.set i x) i = x := by
  simp [nth, List.getD_eq_getElem?_getD, List.getElem?_set_self h]

theorem nth_set_ne (l : List Task) (i j : Nat) (x : Task) (h : i ≠ j) :
    nth (l.set i x) j = nth l j := by
  simp [nth, List.getD_eq_getElem?_getD, List.getElem?_set_ne h]

theorem set_nth_self (l : List Task) (i : Nat) (h : i < l.length) :
    l.set i (nth l i) = l := by
  apply List.ext_getElem
  · simp
  · intro n h1 h2
    rcases eq_or_ne i n with rfl | hne
    · simp [nth_eq_getElem l i h]
    · simp [List.getElem_set_ne hne]

theorem length_swap (l : List Task) (i j : Nat) : (swap l i j).length = l.length := by
  simp [swap]

theorem nth_swap_fst (l : List Task) (i j : Nat) (hi : i < l.length) (hj : j < l.length) :
    nth (swap l i j) i = nth l j := by
  rcases eq_or_ne i j with rfl | hne
  · simp [swap, nth_set_self _ _ _ (by simpa using hi)]
  · rw [swap, nth_set_ne _ _ _ _ (Ne.symm hne), nth_set_self _ _ _ hi]

theorem nth_swap_snd (l : List Task) (i j : Nat) (hj : j < l.length) :
    nth (swap l i j) j = nth l i := by
  rw [swap, nth_set_self _ _ _ (by simpa using hj)]

theorem nth_swap_other (l : List Task) (i j k : Nat) (h1 : k ≠ i) (h2 : k ≠ j) :
    nth (swap l i j) k = nth l k := by
  rw [swap, nth_set_ne _ _ _ _ (Ne.symm h2), nth_set_ne _ _ _ _ (Ne.symm h1)]

theorem cons_set_perm (t : List Task) (k : Nat) (a : Task) (hk : k < t.length) :
    List.Perm (nth t k :: t.set k a) (a :: t) := by
  induction t generalizing k with
  | nil => simp at hk
  | cons b s ih =>
    cases k with
    | zero =>
      have hb : nth (b :: s) 0 = b := by simp [nth]
      rw [hb]
      simpa [List.set] using List.Perm.swap a b s
    | succ m =>
      have hm : m < s.length := by simpa using hk
      have hb : nth (b :: s) (m + 1) = nth s m := by simp [nth]
      rw [hb]
      have hset : (b :: s).set (m + 1) a = b :: s.set m a := by simp [List.set]
      rw [hset]
      have step1 : List.Perm (nth s m :: b :: s.set m a) (b :: nth s m :: s.set m a) :=
        List.Perm.swap b (nth s m) _
      have step2 : List.Perm (b :: nth s m :: s.set m a) (b :: a :: s) :=
        List.Perm.cons b (ih m hm)
      have step3 : List.Perm (b :: a :: s) (a :: b :: s) := List.Perm.swap a b s
      exact (step1.trans step2).trans step3

theorem swap_perm (l : List Task) (i j : Nat) (hi : i < l.length) (hj : j < l.length) :
    List.Perm (swap l i j) l := by
  induction l generalizing i j with
  | nil => simp at hi
  | cons a t ih =>
    cases i with
    | zero =>
      cases j with
      | zero =>
        have : swap (a :: t) 0 0 = a :: t := by
          rw [swap, List.set_set, set_nth_self _ _ hj]
        rw [this]
      | succ m =>
        have hm : m < t.length := by simpa using hj
        have h1 : swap (a :: t) 0 (m + 1) = nth t m :: t.set m a := by
          rw [swap]
          have hna : nth (a :: t) 0 = a := by simp [nth]
          have hnm : nth (a :: t) (m + 1) = nth t m := by simp [nth]
          rw [hna, hnm]
          simp [List.set]
        rw [h1]
        exact cons_set_perm t m a hm
    | succ p =>
      cases j with
      | zero =>
        have hp : p < t.length := by simpa using hi
        have h1 : swap (a :: t) (p + 1) 0 = nth t p :: t.set p a := by
          rw [swap]
          have hna : nth (a :: t) 0 = a := by simp [nth]
          have hnp : nth (a :: t) (p + 1) = nth t p := by simp [nth]
          rw [hna, hnp]
          simp [List.set]
        rw [h1]
        exact cons_set_perm t p a hp
      | succ m =>
        have hp : p < t.length := by simpa using hi
        have hm : m < t.length := by simpa using hj
        have h1 : swap (a :: t) (p + 1) (m + 1) = a :: swap t p m := by
          rw [swap, swap]
          have hnp : nth (a :: t) (p + 1) = nth t p := by simp [nth]
          have hnm : nth (a :: t) (m + 1) = nth t m := by simp [nth]
          rw [hnp, hnm]
          simp [List.set]
        rw [h1]
        exact List.Perm.cons a (ih p m hp hm)

/-! ### Properties of the child selection `largest` -/

namespace PriorityQueue

theorem largest_mem (heap : List Task) (index : Nat) :
    largest heap index = index ∨ largest heap index = 2 * index + 1 ∨
      largest heap index = 2 * index + 2 := by
  unfold largest largestOfLeft
  split_ifs <;> omega

theorem largest_ne_bounds (heap : List Task) (index : Nat)
    (h : largest heap index ≠ index) :
    index < largest heap index ∧ largest heap index < heap.length := by
  revert h
  unfold largest largestOfLeft
  split_ifs <;> intro hne <;> omega

theorem largest_gt_self (heap : List Task) (index : Nat)
    (h : largest heap index ≠ index) :
    getTaskPriority (nth heap index) < getTaskPriority (nth heap (largest heap index)) := by
  revert h
  unfold largest largestOfLeft
  split_ifs <;> intro hne <;> omega

theorem largest_self_left (heap : List Task) (index : Nat)
    (h : largest heap index = index) (hl : 2 * index + 1 < heap.length) :
    getTaskPriority (nth heap (2 * index + 1)) ≤ getTaskPriority (nth heap index) := by
  revert h
  unfold largest largestOfLeft
  split_ifs <;> intro hne <;> omega

theorem largest_self_right (heap : List Task) (index : Nat)
    (h : largest heap index = index) (hr : 2 * index + 2 < heap.length) :
    getTaskPriority (nth heap (2 * index + 2)) ≤ getTaskPriority (nth heap index) := by
  revert h
  unfold largest largestOfLeft
  split_ifs <;> intro hne <;> omega

theorem largest_max_left (heap : List Task) (index : Nat)
    (hl : 2 * index + 1 < heap.length) :
    getTaskPriority (nth heap (2 * index + 1)) ≤
      getTaskPriority (nth heap (largest heap index)) := by
  unfold largest largestOfLeft
  split_ifs <;> omega

theorem largest_max_right (heap : List Task) (index : Nat)
    (hr : 2 * index + 2 < heap.length) :
    getTaskPriority (nth heap (2 * index + 2)) ≤
      getTaskPriority (nth heap (largest heap index)) := by
  unfold largest largestOfLeft
  split_ifs <;> omega

/-! ### Structural lemmas for `heapifyDown` -/

theorem length_heapifyDown (heap : List Task) (index : Nat) :
    (heapifyDown heap index).length = heap.length := by
  induction heap, index using heapifyDown.induct with
  | case1 heap index h =>
    rw [heapifyDown, dif_pos h]
  | case2 heap index h ih =>
    rw [heapifyDown, dif_neg h]
    rw [ih, length_swap]

theorem heapifyDown_perm (heap : List Task) (index : Nat) :
    List.Perm (heapifyDown heap index) heap := by
  induction heap, index using heapifyDown.induct with
  | case1 heap index h =>
    rw [heapifyDown, dif_pos h]
  | case2 heap index h ih =>
    rw [heapifyDown, dif_neg h]
    have hb := largest_ne_bounds heap index h
    exact ih.trans (swap_perm heap index (largest heap index) (by omega) hb.2)

theorem heapifyDown_frame (heap : List Task) (index j : Nat)
    (hj : j ≠ index) (hlt : j < 2 * index + 1) :
    nth (heapifyDown heap index) j = nth heap j := by
  induction heap, index using heapifyDown.induct with
  | case1 heap index h =>
    rw [heapifyDown, dif_pos h]
  | case2 heap index h ih =>
    rw [heapifyDown, dif_neg h]
    have hb := largest_ne_bounds heap index h
    have hmem := largest_mem heap index
    rw [ih (by omega) (by omega)]
    exact nth_swap_other heap index (largest heap index) j hj (by omega)

theorem heapifyDown_apex (heap : List Task) (index : Nat) :
    nth (heapifyDown heap index) index = nth heap index ∨
      (2 * index + 1 < heap.length ∧
        nth (heapifyDown heap index) index = nth heap (2 * index + 1)) ∨
      (2 * index + 2 < heap.length ∧
        nth (heapifyDown heap index) index = nth heap (2 * index + 2)) := by
  rw [heapifyDown]
  split_ifs with h
  · exact Or.inl rfl
  · have hb := largest_ne_bounds heap index h
    have hmem := largest_mem heap index
    have hfr : nth (heapifyDown (swap heap index (largest heap index)) (largest heap index)) index =
        nth (swap heap index (largest heap index)) index :=
      heapifyDown_frame _ _ _ (by omega) (by omega)
    have hsw : nth (swap heap index (largest heap index)) index = nth heap (largest heap index) :=
      nth_swap_fst heap index (largest heap index) (by omega) hb.2
    rcases hmem with hm | hm | hm
    · exact absurd hm h
    · exact Or.inr (Or.inl ⟨by omega, by rw [hfr, hsw, hm]⟩)
    · exact Or.inr (Or.inr ⟨by omega, by rw [hfr, hsw, hm]⟩)

theorem heapifyDown_heapFrom (heap : List Task) (index : Nat)
    (hf : heapFrom heap (index + 1)) :
    heapFrom (heapifyDown heap index) index := by
  revert hf
  induction heap, index using heapifyDown.induct with
  | case1 heap index h =>
    intro hf
    rw [heapifyDown, dif_pos h]
    intro c hc0 hclen hpar
    rcases Nat.lt_or_ge ((c - 1) / 2) (index + 1) with hp | hp
    · have hpeq : (c - 1) / 2 = index := by omega
      rw [hpeq]
      have hcases : c = 2 * index + 1 ∨ c = 2 * index + 2 := by omega
      rcases hcases with rfl | rfl
      · exact largest_self_left heap index h hclen
      · exact largest_self_right heap index h hclen
    · exact hf c hc0 hclen hp
  | case2 heap index h ih =>
    intro hf
    rw [heapifyDown, dif_neg h]
    have hb := largest_ne_bounds heap index h
    have hmem := largest_mem heap index
    have hgt := largest_gt_self heap index h
    have hpre : heapFrom (swap heap index (largest heap index)) (largest heap index + 1) := by
      intro c hc0 hclen hpar
      have hclen' : c < heap.length := by
        rw [length_swap] at hclen
        exact hclen
      rw [nth_swap_other heap index (largest heap index) c (by omega) (by omega),
          nth_swap_other heap index (largest heap index) ((c - 1) / 2) (by omega) (by omega)]
      exact hf c hc0 hclen' (by omega)
    have hrec := ih hpre
    intro c hc0 hclen hpar
    have hclen' : c < heap.length := by
      rw [length_heapifyDown, length_swap] at hclen
      exact hclen
    rcases Nat.lt_or_ge ((c - 1) / 2) (largest heap index) with hpL | hpL
    · by_cases hcL : c = largest heap index
      · have hpeq : (c - 1) / 2 = index := by omega
        rw [hpeq, hcL]
        have hidx : nth (heapifyDown (swap heap index (largest heap index)) (largest heap index)) index =
            nth heap (largest heap index) := by
          rw [heapifyDown_frame _ _ _ (by omega) (by omega),
              nth_swap_fst heap index (largest heap index) (by omega) hb.2]
        rw [hidx]
        have hap := heapifyDown_apex (swap heap index (largest heap index)) (largest heap index)
        have hlsw : (swap heap index (largest heap index)).length = heap.length :=
          length_swap heap index (largest heap index)
        rcases hap with hv | hv | hv
        · rw [hv, nth_swap_snd heap index (largest heap index) hb.2]
          exact le_of_lt hgt
        · rw [hlsw] at hv
          rw [hv.2, nth_swap_other heap index (largest heap index)
            (2 * largest heap index + 1) (by omega) (by omega)]
          have h2 : (2 * largest heap index + 1 - 1) / 2 = largest heap index := by omega
          have h3 := hf (2 * largest heap index + 1) (by omega) hv.1 (by omega)
          rwa [h2] at h3
        · rw [hlsw] at hv
          rw [hv.2, nth_swap_other heap index (largest heap index)
            (2 * largest heap index + 2) (by omega) (by omega)]
          have h2 : (2 * largest heap index + 2 - 1) / 2 = largest heap index := by omega
          have h3 := hf (2 * largest heap index + 2) (by omega) hv.1 (by omega)
          rwa [h2] at h3
      · have hcc : c < 2 * largest heap index + 1 := by omega
        have hvc : nth (heapifyDown (swap heap index (largest heap index)) (largest heap index)) c =
            nth heap c := by
          rw [heapifyDown_frame _ _ _ hcL hcc,
              nth_swap_other heap index (largest heap index) c (by omega) hcL]
        by_cases hpidx : (c - 1) / 2 = index
        · have hvp : nth (heapifyDown (swap heap index (largest heap index)) (largest heap index))
              ((c - 1) / 2) = nth heap (largest heap index) := by
            rw [heapifyDown_frame _ _ _ (by omega) (by omega), hpidx,
                nth_swap_fst heap index (largest heap index) (by omega) hb.2]
          rw [hvc, hvp]
          have hcases : c = 2 * index + 1 ∨ c = 2 * index + 2 := by omega
          rcases hcases with rfl | rfl
          · exact largest_max_left heap index hclen'
          · exact largest_max_right heap index hclen'
        · have hvp : nth (heapifyDown (swap heap index (largest heap index)) (largest heap index))
              ((c - 1) / 2) = nth heap ((c - 1) / 2) := by
            rw [heapifyDown_frame _ _ _ (by omega) (by omega),
                nth_swap_other heap index (largest heap index) ((c - 1) / 2) (by omega) (by omega)]
          rw [hvc, hvp]
          exact hf c hc0 hclen' (by omega)
    · exact hrec c hc0 hclen hpL

/-! ### Structural lemmas for `heapifyUp` -/

theorem length_heapifyUp (heap : List Task) (index : Nat) :
    (heapifyUp heap index).length = heap.length := by
  induction heap, index using heapifyUp.induct with
  | case1 heap index h1 h2 =>
    rw [heapifyUp, if_pos h1, if_pos h2]
  | case2 heap index h1 h2 ih =>
    rw [heapifyUp, if_pos h1, if_neg h2, ih, length_swap]
  | case3 heap index h1 =>
    rw [heapifyUp, if_neg h1]

theorem heapifyUp_perm (heap : List Task) (index : Nat) (hidx : index < heap.length) :
    List.Perm (heapifyUp heap index) heap := by
  revert hidx
  induction heap, index using heapifyUp.induct with
  | case1 heap index h1 h2 =>
    intro hidx
    rw [heapifyUp, if_pos h1, if_pos h2]
  | case2 heap index h1 h2 ih =>
    intro hidx
    rw [heapifyUp, if_pos h1, if_neg h2]
    have hp : (index - 1) / 2 < heap.length := by omega
    have hih := ih (by rw [length_swap]; omega)
    exact hih.trans (swap_perm heap index ((index - 1) / 2) hidx hp)
  | case3 heap index h1 =>
    intro hidx
    rw [heapifyUp, if_neg h1]

theorem heapifyUp_isMaxHeap (heap : List Task) (index : Nat)
    (hidx : index < heap.length)
    (S1 : ∀ c, 0 < c → c < heap.length → c ≠ index →
      getTaskPriority (nth heap c) ≤ getTaskPriority (nth heap ((c - 1) / 2)))
    (S2 : 0 < index → ∀ c, c < heap.length → (c - 1) / 2 = index →
      getTaskPriority (nth heap c) ≤ getTaskPriority (nth heap ((index - 1) / 2))) :
    heapFrom (heapifyUp heap index) 0 := by
  revert hidx S1 S2
  induction heap, index using heapifyUp.induct with
  | case1 heap index h1 h2 =>
    intro hidx S1 S2
    rw [heapifyUp, if_pos h1, if_pos h2]
    intro c hc0 hclen hpar
    by_cases hc : c = index
    · rw [hc]
      exact h2
    · exact S1 c hc0 hclen hc
  | case3 heap index h1 =>
    intro hidx S1 S2
    rw [heapifyUp, if_neg h1]
    intro c hc0 hclen hpar
    exact S1 c hc0 hclen (by omega)
  | case2 heap index h1 h2 ih =>
    intro hidx S1 S2
    rw [heapifyUp, if_pos h1, if_neg h2]
    have hp : (index - 1) / 2 < heap.length := by omega
    have hpi : (index - 1) / 2 ≠ index := by omega
    apply ih
    · rw [length_swap]
      omega
    · -- S1 for the swapped array with the new hole at the parent
      intro c hc0 hclen hcp
      rw [length_swap] at hclen
      by_cases hc1 : c = index
      · rw [hc1, nth_swap_fst heap index ((index - 1) / 2) hidx hp,
            nth_swap_snd heap index ((index - 1) / 2) hp]
        omega
      · by_cases hq1 : (c - 1) / 2 = index
        · have hcbig : (index - 1) / 2 < c := by omega
          rw [nth_swap_other heap index ((index - 1) / 2) c hc1 (by omega), hq1,
              nth_swap_fst heap index ((index - 1) / 2) hidx hp]
          exact S2 h1 c hclen hq1
        · by_cases hq2 : (c - 1) / 2 = (index - 1) / 2
          · have hcq : c ≠ (index - 1) / 2 := by omega
            rw [nth_swap_other heap index ((index - 1) / 2) c hc1 hcq, hq2,
                nth_swap_snd heap index ((index - 1) / 2) hp]
            have hs := S1 c hc0 hclen hc1
            rw [hq2] at hs
            omega
          · have hcq : c ≠ (index - 1) / 2 := by omega
            rw [nth_swap_other heap index ((index - 1) / 2) c hc1 hcq,
                nth_swap_other heap index ((index - 1) / 2) ((c - 1) / 2) (by omega) hq2]
            exact S1 c hc0 hclen hc1
    · -- S2 for the swapped array: grandchildren fit under the grandparent
      intro hp0 c hclen hcp
      rw [length_swap] at hclen
      have hppi : ((index - 1) / 2 - 1) / 2 ≠ index := by omega
      have hppq : ((index - 1) / 2 - 1) / 2 ≠ (index - 1) / 2 := by omega
      rw [nth_swap_other heap index ((index - 1) / 2) (((index - 1) / 2 - 1) / 2) hppi hppq]
      have hsp := S1 ((index - 1) / 2) hp0 hp hpi
      by_cases hc1 : c = index
      · rw [hc1, nth_swap_fst heap index ((index - 1) / 2) hidx hp]
        exact hsp
      · have hcq : c ≠ (index - 1) / 2 := by omega
        rw [nth_swap_other heap index ((index - 1) / 2) c hc1 hcq]
        have hsc := S1 c (by omega) hclen hc1
        rw [hcp] at hsc
        exact le_trans hsc hsp

/-! ### Build loop and constructor -/

theorem heapFrom_half (heap : List Task) : heapFrom heap (heap.length / 2) := by
  intro c hc0 hclen hpar
  omega

theorem buildLoop_heapFrom (i : Nat) :
    ∀ heap, heapFrom heap (i + 1) → heapFrom (buildLoop heap i) 0 := by
  induction i with
  | zero =>
    intro heap hf
    exact heapifyDown_heapFrom heap 0 hf
  | succ j ih =>
    intro heap hf
    exact ih (heapifyDown heap (j + 1)) (heapifyDown_heapFrom heap (j + 1) hf)

theorem buildLoop_perm (i : Nat) : ∀ heap, List.Perm (buildLoop heap i) heap := by
  induction i with
  | zero =>
    intro heap
    exact heapifyDown_perm heap 0
  | succ j ih =>
    intro heap
    exact (ih _).trans (heapifyDown_perm heap (j + 1))

theorem buildMaxHeap_isMaxHeap (heap : List Task) : heapFrom (buildMaxHeap heap) 0 := by
  rw [buildMaxHeap]
  split_ifs with h
  · apply buildLoop_heapFrom
    have he : heap.length / 2 - 1 + 1 = heap.length / 2 := by omega
    rw [he]
    exact heapFrom_half heap
  · intro c hc0 hclen hpar
    omega

theorem buildMaxHeap_perm (heap : List Task) : List.Perm (buildMaxHeap heap) heap := by
  rw [buildMaxHeap]
  split_ifs with h
  · exact buildLoop_perm _ heap
  · exact List.Perm.refl heap

theorem construct_isMaxHeap (tasks : List Task) : heapFrom (construct tasks) 0 :=
  buildMaxHeap_isMaxHeap _

theorem construct_perm (tasks : List Task) :
    List.Perm (construct tasks) (tasks.filter (fun t => t.status == "pending")) :=
  buildMaxHeap_perm _

/-! ### Root dominance and extraction -/

theorem root_max (heap : List Task) (hf : heapFrom heap 0) :
    ∀ j, j < heap.length → getTaskPriority (nth heap j) ≤ getTaskPriority (nth heap 0) := by
  intro j
  induction j using Nat.strong_induction_on with
  | _ j ih =>
    intro hj
    rcases Nat.eq_zero_or_pos j with h0 | hpos
    · rw [h0]
    · have hpar := hf j hpos hj (Nat.zero_le _)
      have hplt : (j - 1) / 2 < j := by omega
      exact le_trans hpar (ih _ hplt (by omega))

theorem nth_dropLast (l : List Task) (k : Nat) (h : k < l.length - 1) :
    nth l.dropLast k = nth l k := by
  have h1 : k < l.dropLast.length := by simp [List.length_dropLast]; omega
  have h2 : k < l.length := by omega
  rw [nth_eq_getElem _ _ h1, nth_eq_getElem _ _ h2]
  exact l.getElem_dropLast k h1

theorem extractMax_isMaxHeap (heap : List Task) (hf : heapFrom heap 0) :
    heapFrom (extractMax heap).2 0 := by
  rw [extractMax]
  split_ifs with h0 h1
  · exact hf
  · intro c hc0 hclen hpar
    simp [List.length_dropLast] at hclen
    omega
  · apply heapifyDown_heapFrom
    intro c hc0 hclen hpar
    have hlen : ((heap.dropLast).set 0 (nth heap (heap.length - 1))).length =
        heap.length - 1 := by
      simp [List.length_dropLast]
    rw [hlen] at hclen
    rw [nth_set_ne _ _ _ _ (by omega), nth_set_ne _ _ _ _ (by omega),
        nth_dropLast _ _ (by omega), nth_dropLast _ _ (by omega)]
    exact hf c hc0 (by omega) (by omega)

theorem extractMax_cons_perm (heap : List Task) (h : heap ≠ []) :
    (extractMax heap).1 = some (nth heap 0) ∧
      List.Perm (nth heap 0 :: (extractMax heap).2) heap := by
  rw [extractMax]
  have hlen0 : heap.length ≠ 0 := by
    simpa [List.length_eq_zero] using h
  split_ifs with h0 h1
  · exact absurd h0 hlen0
  · refine ⟨rfl, ?_⟩
    obtain ⟨a, ha⟩ := List.length_eq_one.mp h1
    subst ha
    simp [nth]
  · refine ⟨rfl, ?_⟩
    have hge2 : 2 ≤ heap.length := by omega
    have hperm1 : List.Perm (heapifyDown ((heap.dropLast).set 0 (nth heap (heap.length - 1))) 0)
        ((heap.dropLast).set 0 (nth heap (heap.length - 1))) := heapifyDown_perm _ 0
    obtain ⟨d0, ds, hdl⟩ : ∃ d0 ds, heap.dropLast = d0 :: ds := by
      have : heap.dropLast.length = heap.length - 1 := by simp [List.length_dropLast]
      cases hd : heap.dropLast with
      | nil => rw [hd] at this; simp at this; omega
      | cons d0 ds => exact ⟨d0, ds, rfl⟩
    have hlast : nth heap (heap.length - 1) = heap.getLast h := by
      rw [nth_eq_getElem _ _ (by omega), List.getLast_eq_getElem heap h]
    have hservice : heap = (d0 :: ds) ++ [heap.getLast h] := by
      rw [← hdl]
      exact (List.dropLast_concat_getLast h).symm
    have hd0 : nth heap 0 = d0 := by
      conv_lhs => rw [hservice]
      simp [nth]
    have hset : (heap.dropLast).set 0 (nth heap (heap.length - 1)) =
        heap.getLast h :: ds := by
      rw [hdl, hlast]
      simp [List.set]
    refine List.Perm.trans (List.Perm.cons (nth heap 0) (hperm1.trans (by rw [hset]))) ?_
    rw [hd0]
    have hstep : List.Perm (heap.getLast h :: ds) (ds ++ [heap.getLast h]) :=
      (List.perm_append_singleton _ _).symm
    refine List.Perm.trans (List.Perm.cons d0 hstep) ?_
    rw [← List.cons_append]
    rw [← hservice]

theorem extractMax_some_length (heap : List Task) (t : Task) (rest : List Task)
    (h : extractMax heap = (some t, rest)) : rest.length + 1 = heap.length := by
  have hne : heap ≠ [] := by
    intro he
    subst he
    rw [extractMax] at h
    simp at h
  have hcp := (extractMax_cons_perm heap hne).2
  rw [h] at hcp
  have := hcp.length_eq
  simpa using this

theorem extractMax_eq_pair (heap : List Task) (h : heap ≠ []) :
    extractMax heap = (some (nth heap 0), (extractMax heap).2) := by
  have h1 := (extractMax_cons_perm heap h).1
  cases he : extractMax heap with
  | mk o rest =>
    rw [he] at h1
    simp at h1
    rw [h1]

theorem extractAllFuel_succ_some (fuel : Nat) (heap : List Task) (t : Task)
    (rest : List Task) (h : extractMax heap = (some t, rest)) :
    extractAllFuel (fuel + 1) heap = t :: extractAllFuel fuel rest := by
  rw [extractAllFuel, h]

theorem extractAllFuel_nil (fuel : Nat) : extractAllFuel fuel [] = [] := by
  cases fuel with
  | zero => rfl
  | succ f =>
    rw [extractAllFuel]
    rfl

theorem extractAllFuel_perm (fuel : Nat) :
    ∀ heap : List Task, heap.length ≤ fuel → List.Perm (extractAllFuel fuel heap) heap := by
  induction fuel with
  | zero =>
    intro heap hle
    have : heap = [] := List.length_eq_zero.mp (by omega)
    rw [this, extractAllFuel_nil]
  | succ f ih =>
    intro heap hle
    by_cases hne : heap = []
    · rw [hne, extractAllFuel_nil]
    · have hext := extractMax_eq_pair heap hne
      rw [extractAllFuel_succ_some f heap _ _ hext]
      have hlen := extractMax_some_length heap _ _ hext
      have hcp := (extractMax_cons_perm heap hne).2
      exact List.Perm.trans (List.Perm.cons _ (ih _ (by omega))) hcp

theorem extractAllFuel_pairwise (fuel : Nat) :
    ∀ heap : List Task, heap.length ≤ fuel → heapFrom heap 0 →
      List.Pairwise (fun x y => getTaskPriority y ≤ getTaskPriority x)
        (extractAllFuel fuel heap) := by
  induction fuel with
  | zero =>
    intro heap hle hf
    have : heap = [] := List.length_eq_zero.mp (by omega)
    rw [this, extractAllFuel_nil]
    exact List.Pairwise.nil
  | succ f ih =>
    intro heap hle hf
    by_cases hne : heap = []
    · rw [hne, extractAllFuel_nil]
      exact List.Pairwise.nil
    · have hext := extractMax_eq_pair heap hne
      rw [extractAllFuel_succ_some f heap _ _ hext]
      have hlen := extractMax_some_length heap _ _ hext
      have hrest : heapFrom (extractMax heap).2 0 := extractMax_isMaxHeap heap hf
      refine List.Pairwise.cons ?_ (ih _ (by omega) hrest)
      intro y hy
      have hyrest : y ∈ (extractMax heap).2 :=
        (extractAllFuel_perm f _ (by omega)).mem_iff.mp hy
      have hyheap : y ∈ heap := by
        have hcp := (extractMax_cons_perm heap hne).2
        exact hcp.mem_iff.mp (List.mem_cons_of_mem _ hyrest)
      obtain ⟨n, hn, he⟩ := List.getElem_of_mem hyheap
      have := root_max heap hf n hn
      rw [nth_eq_getElem _ _ hn, he] at this
      exact this

theorem extractAll_perm (heap : List Task) : List.Perm (extractAll heap) heap :=
  extractAllFuel_perm heap.length heap le_rfl

theorem extractAll_pairwise (heap : List Task) (hf : heapFrom heap 0) :
    List.Pairwise (fun x y => getTaskPriority y ≤ getTaskPriority x) (extractAll heap) :=
  extractAllFuel_pairwise heap.length heap le_rfl hf

/-! ### Preservation of the heap invariant by the public operations -/

theorem nth_append_lt (l1 l2 : List Task) (k : Nat) (h : k < l1.length) :
    nth (l1 ++ l2) k = nth l1 k := by
  simp [nth, List.getD_eq_getElem?_getD, List.getElem?_append_left h]

theorem insert_isMaxHeap (heap : List Task) (task : Task) (hf : heapFrom heap 0) :
    heapFrom (insert heap task) 0 := by
  rw [insert]
  have hlen : (heap ++ [task]).length = heap.length + 1 := by simp
  apply heapifyUp_isMaxHeap
  · rw [hlen]
    omega
  · intro c hc0 hclen hcne
    rw [hlen] at hclen hcne
    have hc : c < heap.length := by omega
    have hp : (c - 1) / 2 < heap.length := by omega
    rw [nth_append_lt _ _ _ hc, nth_append_lt _ _ _ hp]
    exact hf c hc0 hc (Nat.zero_le _)
  · intro hpos c hclen hcp
    rw [hlen] at hclen hcp
    omega

theorem updatePriority_isMaxHeap (heap : List Task) (taskId newPriority : String)
    (hf : heapFrom heap 0) : heapFrom (updatePriority heap taskId newPriority) 0 := by
  rw [updatePriority]
  cases hidx : heap.findIdx? (fun t => t.id == taskId) with
  | none => exact hf
  | some index =>
    obtain ⟨hbound, -, -⟩ := List.findIdx?_eq_some_iff_getElem.mp hidx
    dsimp only
    split_ifs with hcmp
    · apply heapifyUp_isMaxHeap
      · rw [List.length_set]
        exact hbound
      · intro c hc0 hclen hcne
        rw [List.length_set] at hclen
        rcases eq_or_ne ((c - 1) / 2) index with hq | hq
        · rw [nth_set_ne _ _ _ _ (Ne.symm hcne), hq, nth_set_self _ _ _ hbound]
          have hold := hf c hc0 hclen (Nat.zero_le _)
          rw [hq] at hold
          exact le_trans hold (le_of_lt hcmp)
        · rw [nth_set_ne _ _ _ _ (Ne.symm hcne), nth_set_ne _ _ _ _ (Ne.symm hq)]
          exact hf c hc0 hclen (Nat.zero_le _)
      · intro hpos c hclen hcp
        rw [List.length_set] at hclen
        have hcne : c ≠ index := by omega
        have hppne : (index - 1) / 2 ≠ index := by omega
        rw [nth_set_ne _ _ _ _ (Ne.symm hcne), nth_set_ne _ _ _ _ (Ne.symm hppne)]
        have h1 := hf c (by omega) hclen (Nat.zero_le _)
        rw [hcp] at h1
        have h2 := hf index hpos hbound (Nat.zero_le _)
        exact le_trans h1 h2
    · have hfrom : heapFrom (heap.set index (setPriority (nth heap index) newPriority))
          (index + 1) := by
        intro c hc0 hclen hpar
        rw [List.length_set] at hclen
        have hcne : c ≠ index := by omega
        have hpne : (c - 1) / 2 ≠ index := by omega
        rw [nth_set_ne _ _ _ _ (Ne.symm hcne), nth_set_ne _ _ _ _ (Ne.symm hpne)]
        exact hf c hc0 hclen (Nat.zero_le _)
      have hsunk := heapifyDown_heapFrom _ index hfrom
      intro c hc0 hclen hpar
      have hlen2 : (heapifyDown (heap.set index (setPriority (nth heap index) newPriority))
          index).length = heap.length := by
        rw [length_heapifyDown, List.length_set]
      rw [hlen2] at hclen
      rcases Nat.lt_or_ge ((c - 1) / 2) index with hpi | hpi
      · have hsetlen : (heap.set index (setPriority (nth heap index) newPriority)).length =
            heap.length := List.length_set heap index _
        by_cases hci : c = index
        · rw [hci]
          have hipos : 0 < index := by omega
          have hvp : nth (heapifyDown (heap.set index (setPriority (nth heap index)
              newPriority)) index) ((index - 1) / 2) = nth heap ((index - 1) / 2) := by
            rw [heapifyDown_frame _ _ _ (by omega) (by omega),
                nth_set_ne _ _ _ _ (by omega)]
          rw [hvp]
          have hroot := hf index hipos hbound (Nat.zero_le _)
          have hap := heapifyDown_apex
            (heap.set index (setPriority (nth heap index) newPriority)) index
          rcases hap with hv | hv | hv
          · rw [hv, nth_set_self _ _ _ hbound]
            omega
          · rw [hsetlen] at hv
            rw [hv.2, nth_set_ne _ _ _ _ (by omega)]
            have hchild := hf (2 * index + 1) (by omega) hv.1 (Nat.zero_le _)
            have he : (2 * index + 1 - 1) / 2 = index := by omega
            rw [he] at hchild
            omega
          · rw [hsetlen] at hv
            rw [hv.2, nth_set_ne _ _ _ _ (by omega)]
            have hchild := hf (2 * index + 2) (by omega) hv.1 (Nat.zero_le _)
            have he : (2 * index + 2 - 1) / 2 = index := by omega
            rw [he] at hchild
            omega
        · have hvc : nth (heapifyDown (heap.set index (setPriority (nth heap index)
              newPriority)) index) c = nth heap c := by
            rw [heapifyDown_frame _ _ _ hci (by omega), nth_set_ne _ _ _ _ (Ne.symm hci)]
          have hvp : nth (heapifyDown (heap.set index (setPriority (nth heap index)
              newPriority)) index) ((c - 1) / 2) = nth heap ((c - 1) / 2) := by
            rw [heapifyDown_frame _ _ _ (by omega) (by omega),
                nth_set_ne _ _ _ _ (by omega)]
          rw [hvc, hvp]
          exact hf c hc0 hclen (Nat.zero_le _)
      · exact hsunk c hc0 (by rw [hlen2]; exact hclen) hpi

theorem applyOp_isMaxHeap (heap : List Task) (op : HeapOp) (hf : heapFrom heap 0) :
    heapFrom (applyOp heap op) 0 := by
  cases op with
  | insertOp t => exact insert_isMaxHeap heap t hf
  | extractMaxOp => exact extractMax_isMaxHeap heap hf
  | updatePriorityOp taskId newPriority => exact updatePriority_isMaxHeap heap taskId newPriority hf

theorem applyOps_isMaxHeap (ops : List HeapOp) :
    ∀ heap, heapFrom heap 0 → heapFrom (applyOps heap ops) 0 := by
  induction ops with
  | nil =>
    intro heap hf
    exact hf
  | cons op rest ih =>
    intro heap hf
    exact ih _ (applyOp_isMaxHeap heap op hf)

end PriorityQueue

/-! ### The two formulations of the heap property agree -/

theorem heapFrom_iff_maxHeapProperty (heap : List Task) :
    heapFrom heap 0 ↔ maxHeapProperty heap := by
  constructor
  · intro hf i
    constructor
    · intro hl
      have he : (2 * i + 1 - 1) / 2 = i := by omega
      have := hf (2 * i + 1) (by omega) hl (Nat.zero_le _)
      rwa [he] at this
    · intro hr
      have he : (2 * i + 2 - 1) / 2 = i := by omega
      have := hf (2 * i + 2) (by omega) hr (Nat.zero_le _)
      rwa [he] at this
  · intro hm c hc0 hclen hpar
    have hcases : c = 2 * ((c - 1) / 2) + 1 ∨ c = 2 * ((c - 1) / 2) + 2 := by omega
    rcases hcases with hc | hc
    · have := (hm ((c - 1) / 2)).1 (by omega)
      rwa [← hc] at this
    · have := (hm ((c - 1) / 2)).2 (by omega)
      rwa [← hc] at this

/-! ### Frame lemmas for `updatePriority` -/

namespace PriorityQueue

theorem updatePriority_perm_set (heap : List Task) (taskId newPriority : String)
    (index : Nat) (hidx : heap.findIdx? (fun t => t.id == taskId) = some index) :
    List.Perm (updatePriority heap taskId newPriority)
      (heap.set index (setPriority (nth heap index) newPriority)) := by
  rw [updatePriority, hidx]
  dsimp only
  obtain ⟨hbound, -, -⟩ := List.findIdx?_eq_some_iff_getElem.mp hidx
  split_ifs with hcmp
  · exact heapifyUp_perm _ index (by rw [List.length_set]; exact hbound)
  · exact heapifyDown_perm _ index

theorem set_setPriority_map_id (heap : List Task) (index : Nat) (p : String)
    (h : index < heap.length) :
    (heap.set index (setPriority (nth heap index) p)).map Task.id = heap.map Task.id := by
  apply List.ext_getElem
  · simp
  · intro n h1 h2
    rw [List.getElem_map, List.getElem_map]
    rcases eq_or_ne index n with rfl | hne
    · have hb : index < (heap.set index (setPriority (nth heap index) p)).length := by
        rw [List.length_set]
        exact h
      have hv : (heap.set index (setPriority (nth heap index) p))[index] =
          setPriority (nth heap index) p := by
        rw [← nth_eq_getElem _ _ hb, nth_set_self _ _ _ h]
      rw [hv]
      rw [nth_eq_getElem _ _ h]
      rfl
    · rw [List.getElem_set_ne hne]

end PriorityQueue

/-! ### Lemmas for the rescheduler scan -/

theorem rescheduleFold_mono (d : Int) (l : List Task) :
    ∀ p : Int, p ≤ l.foldl (rescheduleStep d) p := by
  induction l with
  | nil =>
    intro p
    simp
  | cons e rest ih =>
    intro p
    rw [List.foldl_cons]
    refine le_trans ?_ (ih (rescheduleStep d p e))
    simp only [rescheduleStep]
    split_ifs with h
    · omega
    · exact le_refl p

theorem rescheduleFold_cases (d : Int) (l : List Task) :
    ∀ p : Int, l.foldl (rescheduleStep d) p = p ∨
      ∃ g ∈ l, l.foldl (rescheduleStep d) p = g.deadline + 60000 := by
  induction l with
  | nil =>
    intro p
    exact Or.inl rfl
  | cons e rest ih =>
    intro p
    rw [List.foldl_cons]
    rcases ih (rescheduleStep d p e) with h | ⟨g, hg, he⟩
    · rw [h]
      simp only [rescheduleStep]
      split_ifs with hc
      · exact Or.inr ⟨e, List.mem_cons_self e rest, rfl⟩
      · exact Or.inl rfl
    · exact Or.inr ⟨g, List.mem_cons_of_mem _ hg, he⟩

theorem rescheduleFold_noOverlap (d : Int) (l : List Task)
    (hsort : List.Pairwise (fun a b => a.deadline ≤ b.deadline) l) :
    ∀ p : Int, ∀ e ∈ l,
      ¬(l.foldl (rescheduleStep d) p < e.deadline ∧
        e.deadline - e.estimatedDuration * 60000 < l.foldl (rescheduleStep d) p + d) := by
  induction l with
  | nil =>
    intro p e he
    simp at he
  | cons e0 rest ih =>
    intro p e he
    rw [List.foldl_cons]
    have hhead := (List.pairwise_cons.mp hsort).1
    have htail := (List.pairwise_cons.mp hsort).2
    rcases List.mem_cons.mp he with rfl | hmem
    · by_cases hc : p < e.deadline ∧ p + d > e.deadline - e.estimatedDuration * 60000
      · have hstep : rescheduleStep d p e = e.deadline + 60000 := by
          simp only [rescheduleStep]
          rw [if_pos hc]
        rw [hstep]
        have hmono := rescheduleFold_mono d rest (e.deadline + 60000)
        intro hcon
        omega
      · have hstep : rescheduleStep d p e = p := by
          simp only [rescheduleStep]
          rw [if_neg hc]
        rw [hstep]
        rcases rescheduleFold_cases d rest p with heq | ⟨g, hg, heq⟩
        · rw [heq]
          intro hcon
          exact hc ⟨hcon.1, hcon.2⟩
        · rw [heq]
          have hgd : e.deadline ≤ g.deadline := hhead g hg
          intro hcon
          omega
    · exact ih htail (rescheduleStep d p e0) e hmem

theorem rescheduleFold_id (d : Int) (l : List Task) (p : Int)
    (h : ∀ t ∈ l, ¬(p < t.deadline ∧ p + d > t.deadline - t.estimatedDuration * 60000)) :
    l.foldl (rescheduleStep d) p = p := by
  induction l with
  | nil => rfl
  | cons e rest ih =>
    rw [List.foldl_cons]
    have hstep : rescheduleStep d p e = p := by
      simp only [rescheduleStep]
      rw [if_neg (h e (List.mem_cons_self e rest))]
    rw [hstep]
    exact ih (fun t ht => h t (List.mem_cons_of_mem _ ht))

theorem deadline_sort_pairwise (l : List Task) :
    List.Pairwise (fun a b : Task => a.deadline ≤ b.deadline)
      (l.mergeSort (fun a b => decide (a.deadline ≤ b.deadline))) := by
  have hs := @List.sorted_mergeSort Task
    (fun a b : Task => decide (a.deadline ≤ b.deadline))
    (fun a b c h1 h2 => by
      simp only [decide_eq_true_eq] at h1 h2 ⊢
      omega)
    (fun a b => by
      simp only [Bool.or_eq_true, decide_eq_true_eq]
      omega)
    l
  exact hs.imp (fun h => by simpa using h)

/-! ### Lemmas for the conflict scan -/

theorem pushUnique_mem_id (conflicts : List Task) (t : Task) :
    t.id ∈ (pushUnique conflicts t).map Task.id := by
  rw [pushUnique]
  split_ifs with hany
  · obtain ⟨c, hc, hid⟩ := List.any_eq_true.mp hany
    have hcid : c.id = t.id := by simpa using hid
    exact hcid ▸ List.mem_map_of_mem Task.id hc
  · simp

theorem pushUnique_mono (conflicts : List Task) (t : Task) (x : String)
    (h : x ∈ conflicts.map Task.id) : x ∈ (pushUnique conflicts t).map Task.id := by
  rw [pushUnique]
  split_ifs with hany
  · exact h
  · rw [List.map_append]
    exact List.mem_append_left _ h

theorem pushUnique_nodup (conflicts : List Task) (t : Task)
    (h : (conflicts.map Task.id).Nodup) : ((pushUnique conflicts t).map Task.id).Nodup := by
  rw [pushUnique]
  split_ifs with hany
  · exact h
  · rw [List.map_append]
    simp only [List.map_cons, List.map_nil]
    rw [(List.perm_append_singleton _ _).nodup_iff]
    rw [List.nodup_cons]
    refine ⟨?_, h⟩
    intro hmem
    obtain ⟨c, hc, hcid⟩ := List.mem_map.mp hmem
    have : conflicts.any (fun c => c.id == t.id) = true :=
      List.any_eq_true.mpr ⟨c, hc, by simpa using hcid⟩
    simp [this] at hany

theorem conflictStep_mono_id (acc : List Task × List String) (t1 t2 : Task) (x : String)
    (h : x ∈ acc.1.map Task.id) : x ∈ (conflictStep acc t1 t2).1.map Task.id := by
  rw [conflictStep]
  split_ifs with hov
  · exact pushUnique_mono _ _ _ (pushUnique_mono _ _ _ h)
  · exact h

theorem conflictStep_mono_rec (acc : List Task × List String) (t1 t2 : Task) (r : String)
    (h : r ∈ acc.2) : r ∈ (conflictStep acc t1 t2).2 := by
  rw [conflictStep]
  split_ifs with hov
  · exact List.mem_append_left _ h
  · exact h

theorem conflictStep_nodup (acc : List Task × List String) (t1 t2 : Task)
    (h : (acc.1.map Task.id).Nodup) : ((conflictStep acc t1 t2).1.map Task.id).Nodup := by
  rw [conflictStep]
  split_ifs with hov
  · exact pushUnique_nodup _ _ (pushUnique_nodup _ _ h)
  · exact h

theorem innerScan_cons (t1 e : Task) (r : List Task) (acc : List Task × List String) :
    innerScan t1 (e :: r) acc = innerScan t1 r (conflictStep acc t1 e) := rfl

theorem innerScan_mono_id (t1 : Task) (rest : List Task) (x : String) :
    ∀ acc : List Task × List String, x ∈ acc.1.map Task.id →
      x ∈ (innerScan t1 rest acc).1.map Task.id := by
  induction rest with
  | nil =>
    intro acc h
    exact h
  | cons e r ih =>
    intro acc h
    rw [innerScan_cons]
    exact ih _ (conflictStep_mono_id acc t1 e x h)

theorem innerScan_mono_rec (t1 : Task) (rest : List Task) (s : String) :
    ∀ acc : List Task × List String, s ∈ acc.2 → s ∈ (innerScan t1 rest acc).2 := by
  induction rest with
  | nil =>
    intro acc h
    exact h
  | cons e r ih =>
    intro acc h
    rw [innerScan_cons]
    exact ih _ (conflictStep_mono_rec acc t1 e s h)

theorem innerScan_nodup (t1 : Task) (rest : List Task) :
    ∀ acc : List Task × List String, (acc.1.map Task.id).Nodup →
      ((innerScan t1 rest acc).1.map Task.id).Nodup := by
  induction rest with
  | nil =>
    intro acc h
    exact h
  | cons e r ih =>
    intro acc h
    rw [innerScan_cons]
    exact ih _ (conflictStep_nodup acc t1 e h)

theorem innerScan_hit (t1 : Task) (rest : List Task) (t2 : Task)
    (hov : overlaps t1 t2 = true) :
    ∀ acc : List Task × List String, t2 ∈ rest →
      t1.id ∈ (innerScan t1 rest acc).1.map Task.id ∧
      t2.id ∈ (innerScan t1 rest acc).1.map Task.id ∧
      conflictRecommendation t1 t2 ∈ (innerScan t1 rest acc).2 := by
  induction rest with
  | nil =>
    intro acc hmem
    simp at hmem
  | cons e r ih =>
    intro acc hmem
    rw [innerScan_cons]
    rcases List.mem_cons.mp hmem with rfl | hmem'
    · have hstep : conflictStep acc t1 t2 =
          (pushUnique (pushUnique acc.1 t1) t2, acc.2 ++ [conflictRecommendation t1 t2]) := by
        rw [conflictStep, if_pos hov]
      rw [hstep]
      refine ⟨innerScan_mono_id t1 r t1.id _ ?_, innerScan_mono_id t1 r t2.id _ ?_,
        innerScan_mono_rec t1 r _ _ ?_⟩
      · exact pushUnique_mono _ _ _ (pushUnique_mem_id acc.1 t1)
      · exact pushUnique_mem_id _ t2
      · exact List.mem_append_right _ (List.mem_singleton_self _)
    · exact ih _ hmem'

theorem outerScan_cons (t1 : Task) (rest : List Task) (acc : List Task × List String) :
    outerScan (t1 :: rest) acc = outerScan rest (innerScan t1 rest acc) := rfl

theorem outerScan_mono_id (l : List Task) (x : String) :
    ∀ acc : List Task × List String, x ∈ acc.1.map Task.id →
      x ∈ (outerScan l acc).1.map Task.id := by
  induction l with
  | nil =>
    intro acc h
    exact h
  | cons t1 rest ih =>
    intro acc h
    rw [outerScan_cons]
    exact ih _ (innerScan_mono_id t1 rest x acc h)

theorem outerScan_mono_rec (l : List Task) (s : String) :
    ∀ acc : List Task × List String, s ∈ acc.2 → s ∈ (outerScan l acc).2 := by
  induction l with
  | nil =>
    intro acc h
    exact h
  | cons t1 rest ih =>
    intro acc h
    rw [outerScan_cons]
    exact ih _ (innerScan_mono_rec t1 rest s acc h)

theorem outerScan_nodup (l : List Task) :
    ∀ acc : List Task × List String, (acc.1.map Task.id).Nodup →
      ((outerScan l acc).1.map Task.id).Nodup := by
  induction l with
  | nil =>
    intro acc h
    exact h
  | cons t1 rest ih =>
    intro acc h
    rw [outerScan_cons]
    exact ih _ (innerScan_nodup t1 rest acc h)

theorem outerScan_hit (l : List Task) :
    ∀ (acc : List Task × List String) (i j : Nat), i < j → j < l.length →
      overlaps (nth l i) (nth l j) = true →
      (nth l i).id ∈ (outerScan l acc).1.map Task.id ∧
      (nth l j).id ∈ (outerScan l acc).1.map Task.id ∧
      conflictRecommendation (nth l i) (nth l j) ∈ (outerScan l acc).2 := by
  induction l with
  | nil =>
    intro acc i j hij hj
    simp at hj
  | cons t1 rest ih =>
    intro acc i j hij hj hov
    rw [outerScan_cons]
    cases j with
    | zero => omega
    | succ j' =>
      have hnthj : nth (t1 :: rest) (j' + 1) = nth rest j' := by simp [nth]
      have hj' : j' < rest.length := by
        simp at hj
        omega
      cases i with
      | zero =>
        have hnthi : nth (t1 :: rest) 0 = t1 := by simp [nth]
        rw [hnthi, hnthj] at hov ⊢
        have hmem : nth rest j' ∈ rest := by
          rw [nth_eq_getElem _ _ hj']
          exact List.getElem_mem hj'
        have hh := innerScan_hit t1 rest (nth rest j') hov acc hmem
        exact ⟨outerScan_mono_id rest _ _ hh.1, outerScan_mono_id rest _ _ hh.2.1,
          outerScan_mono_rec rest _ _ hh.2.2⟩
      | succ i' =>
        have hnthi : nth (t1 :: rest) (i' + 1) = nth rest i' := by simp [nth]
        rw [hnthi, hnthj] at hov ⊢
        exact ih (innerScan t1 rest acc) i' j' (by omega) hj' hov

/-! ### Priority weight facts -/

theorem priorityWeight_bounds (t : Task) : 0 ≤ priorityWeight t ∧ priorityWeight t ≤ 3 := by
  unfold priorityWeight PRIORITY_VALUES
  split_ifs <;> simp

theorem priorityWeight_eq_three_iff (t : Task) : priorityWeight t = 3 ↔ t.priority = "high" := by
  unfold priorityWeight PRIORITY_VALUES
  split_ifs with h1 h2 h3 <;> simp_all

/-! ### Counting lemma for the analytics buckets -/

theorem filter_three_length_le (l : List Task) (p1 p2 p3 : Task → Bool)
    (hex : ∀ a : Task, (p1 a = true → p2 a = false ∧ p3 a = false) ∧
      (p2 a = true → p3 a = false)) :
    (l.filter p1).length + (l.filter p2).length + (l.filter p3).length ≤ l.length := by
  induction l with
  | nil => simp
  | cons a t ih =>
    simp only [List.filter_cons, List.length_cons]
    have ha := hex a
    cases hp1 : p1 a <;> cases hp2 : p2 a <;> cases hp3 : p3 a <;>
      simp_all <;> omega

/-! ### Claim theorems -/

/-- C4: starting from a heap built by the constructor over any task list,
after any sequence of insert, extractMax and updatePriority calls, the
backing array satisfies the max-heap property under the score: every node
dominates both of its existing children. -/
theorem C4_heap_invariant (tasks : List Task) (ops : List PriorityQueue.HeapOp) :
    maxHeapProperty (PriorityQueue.applyOps (PriorityQueue.construct tasks) ops) :=
  (heapFrom_iff_maxHeapProperty _).mp
    (PriorityQueue.applyOps_isMaxHeap ops _ (PriorityQueue.construct_isMaxHeap tasks))

/-- C5: constructing a priority queue and extracting until empty yields a
sequence of tasks with non-increasing scores whose multiset is exactly the
pending tasks of the input. -/
theorem C5_extraction_order (tasks : List Task) :
    List.Pairwise (fun x y => getTaskPriority y ≤ getTaskPriority x)
      (PriorityQueue.extractAll (PriorityQueue.construct tasks)) ∧
    List.Perm (PriorityQueue.extractAll (PriorityQueue.construct tasks))
      (tasks.filter (fun t => t.status == "pending")) :=
  ⟨PriorityQueue.extractAll_pairwise _ (PriorityQueue.construct_isMaxHeap tasks),
    (PriorityQueue.extractAll_perm _).trans (PriorityQueue.construct_perm tasks)⟩

/-- C8: extractMax on an empty heap returns an absent result and leaves
the heap empty, and updatePriority with an id present in no element is a
silent no-op. -/
theorem C8_graceful_degradation (heap : List Task) (taskId newPriority : String)
    (habsent : ∀ t ∈ heap, t.id ≠ taskId) :
    PriorityQueue.extractMax ([] : List Task) = (none, []) ∧
    PriorityQueue.updatePriority heap taskId newPriority = heap := by
  constructor
  · rfl
  · rw [PriorityQueue.updatePriority]
    have hnone : heap.findIdx? (fun t => t.id == taskId) = none := by
      rw [List.findIdx?_eq_none_iff]
      intro t ht
      simpa using habsent t ht
    rw [hnone]

/-- Witness for C8 at a concrete heap and an absent id. -/
theorem C8_graceful_degradation_witness :
    PriorityQueue.extractMax ([] : List Task) = (none, []) ∧
    PriorityQueue.updatePriority [taskM0] "zzz" "high" = [taskM0] :=
  C8_graceful_degradation [taskM0] "zzz" "high" (by decide)

/-- C10: updatePriority on a present id only replaces the priority field of
the first matching element: the length is unchanged, the found element's id
is the requested one, the result is a permutation of the old array with
just that element's priority replaced, and the multiset of ids is
unchanged. -/
theorem C10_update_frame (heap : List Task) (taskId newPriority : String) (index : Nat)
    (hidx : heap.findIdx? (fun t => t.id == taskId) = some index) :
    (PriorityQueue.updatePriority heap taskId newPriority).length = heap.length ∧
    (nth heap index).id = taskId ∧
    List.Perm (PriorityQueue.updatePriority heap taskId newPriority)
      (heap.set index (PriorityQueue.setPriority (nth heap index) newPriority)) ∧
    List.Perm ((PriorityQueue.updatePriority heap taskId newPriority).map Task.id)
      (heap.map Task.id) := by
  obtain ⟨hbound, hpred, -⟩ := List.findIdx?_eq_some_iff_getElem.mp hidx
  have hperm := PriorityQueue.updatePriority_perm_set heap taskId newPriority index hidx
  have hid : (nth heap index).id = taskId := by
    rw [nth_eq_getElem _ _ hbound]
    simpa using hpred
  refine ⟨?_, hid, hperm, ?_⟩
  · rw [hperm.length_eq, List.length_set]
  · have hmap := hperm.map Task.id
    rw [PriorityQueue.set_setPriority_map_id heap index newPriority hbound] at hmap
    exact hmap

/-- Witness for C10 on a concrete two-element heap. -/
theorem C10_update_frame_witness :
    (PriorityQueue.updatePriority [taskM0, taskM30] "B" "low").length =
      ([taskM0, taskM30] : List Task).length ∧
    (nth [taskM0, taskM30] 1).id = "B" ∧
    List.Perm (PriorityQueue.updatePriority [taskM0, taskM30] "B" "low")
      (([taskM0, taskM30] : List Task).set 1
        (PriorityQueue.setPriority (nth [taskM0, taskM30] 1) "low")) ∧
    List.Perm ((PriorityQueue.updatePriority [taskM0, taskM30] "B" "low").map Task.id)
      (([taskM0, taskM30] : List Task).map Task.id) :=
  C10_update_frame [taskM0, taskM30] "B" "low" 1 (by decide)

/-- C9: for a task with positive estimated duration the rescheduler returns
at least the current deadline plus the duration in milliseconds, hence a
timestamp strictly later than the current deadline, even with no conflict. -/
theorem C9_always_later (task : Task) (allTasks : List Task)
    (hdur : 0 < task.estimatedDuration) :
    task.deadline + task.estimatedDuration * 60000 ≤ rescheduleTask task allTasks ∧
    task.deadline < rescheduleTask task allTasks := by
  have hm := rescheduleFold_mono (task.estimatedDuration * 60000)
    ((allTasks.filter (fun t => t.id != task.id && t.status == "pending")).mergeSort
      (fun a b => decide (a.deadline ≤ b.deadline))) task.deadline
  simp only [rescheduleTask]
  constructor <;> omega

/-- Witness for C9 on a concrete task with no other tasks present. -/
theorem C9_always_later_witness :
    taskM0.deadline + taskM0.estimatedDuration * 60000 ≤ rescheduleTask taskM0 [] ∧
    taskM0.deadline < rescheduleTask taskM0 [] :=
  C9_always_later taskM0 [] (by decide)

/-- C6: the timestamp returned by rescheduleTask is feasible: the interval
it occupies, from the returned time minus the task's duration in
milliseconds up to the returned time, overlaps no other pending task's
interval from the supplied set. -/
theorem C6_reschedule_feasible (task : Task) (allTasks : List Task) (t : Task)
    (hmem : t ∈ allTasks) (hid : t.id ≠ task.id) (hstat : t.status = "pending") :
    ¬(rescheduleTask task allTasks - task.estimatedDuration * 60000 < t.deadline ∧
      t.deadline - t.estimatedDuration * 60000 < rescheduleTask task allTasks) := by
  have hsorted := deadline_sort_pairwise
    (allTasks.filter (fun t => t.id != task.id && t.status == "pending"))
  have hmem' : t ∈ (allTasks.filter
      (fun t => t.id != task.id && t.status == "pending")).mergeSort
      (fun a b => decide (a.deadline ≤ b.deadline)) := by
    rw [List.mem_mergeSort, List.mem_filter]
    refine ⟨hmem, ?_⟩
    simp [hid, hstat]
  have hno := rescheduleFold_noOverlap (task.estimatedDuration * 60000) _ hsorted
    task.deadline t hmem'
  simp only [rescheduleTask]
  intro hcon
  apply hno
  constructor <;> omega

/-- Witness for C6 on two concrete overlapping pending tasks. -/
theorem C6_reschedule_feasible_witness :
    ¬(rescheduleTask taskM0 [taskM0, taskM30] - taskM0.estimatedDuration * 60000 <
        taskM30.deadline ∧
      taskM30.deadline - taskM30.estimatedDuration * 60000 <
        rescheduleTask taskM0 [taskM0, taskM30]) :=
  C6_reschedule_feasible taskM0 [taskM0, taskM30] taskM30 (by decide) (by decide) rfl

/-- C1 fails on the code: for a task that overlaps no other pending task
(here: the only listed task is the target itself), the returned deadline is
the current deadline plus the duration, not the deadline unchanged. -/
theorem C1_counterexample :
    (∀ t ∈ ([taskM0] : List Task), t.id = taskM0.id) ∧
    taskM0.deadline = 0 ∧
    rescheduleTask taskM0 [taskM0] = 3600000 := by
  refine ⟨?_, rfl, by simp [rescheduleTask, taskM0, mkTask]⟩
  intro t ht
  have heq : t = taskM0 := by simpa using ht
  rw [heq]

/-- C1 amended: the rescheduler starts from a proposed time equal to the
task's current deadline, treats it as the start of the task's new slot,
pushes it forward only when the interval from the proposed time to the
proposed time plus the duration overlaps another pending task's interval,
and returns the final proposed time plus the task's duration; in
particular, when the interval from the current deadline to the deadline
plus the duration overlaps no other pending task's interval, the returned
deadline is exactly the current deadline plus the duration in
milliseconds. -/
theorem C1_amended (task : Task) (allTasks : List Task)
    (hno : ∀ t ∈ allTasks, t.id ≠ task.id → t.status = "pending" →
      ¬(task.deadline < t.deadline ∧
        task.deadline + task.estimatedDuration * 60000 >
          t.deadline - t.estimatedDuration * 60000)) :
    rescheduleTask task allTasks = task.deadline + task.estimatedDuration * 60000 := by
  simp only [rescheduleTask]
  have hall : ∀ t ∈ (allTasks.filter
      (fun t => t.id != task.id && t.status == "pending")).mergeSort
      (fun a b => decide (a.deadline ≤ b.deadline)),
      ¬(task.deadline < t.deadline ∧
        task.deadline + task.estimatedDuration * 60000 >
          t.deadline - t.estimatedDuration * 60000) := by
    intro t ht
    rw [List.mem_mergeSort, List.mem_filter] at ht
    have hcond := ht.2
    simp only [Bool.and_eq_true, bne_iff_ne, beq_iff_eq] at hcond
    exact hno t ht.1 hcond.1 hcond.2
  rw [rescheduleFold_id _ _ _ hall]

/-- Witness for the amended C1: a task with no other pending tasks gets
back its deadline plus its duration. -/
theorem C1_amended_witness :
    rescheduleTask taskM0 [taskM0] = taskM0.deadline + taskM0.estimatedDuration * 60000 :=
  C1_amended taskM0 [taskM0] (by decide)

/-- C2 fails on the code for the full representable JavaScript date range:
a high-priority task at the maximal representable deadline scores below a
low-priority task at epoch 0, and the heap built over the two extracts the
low-priority task first even though a high-priority pending task exists. -/
theorem C2_counterexample :
    priorityWeight taskLowNear < priorityWeight taskHighFar ∧
    representableDeadline taskHighFar.deadline ∧
    representableDeadline taskLowNear.deadline ∧
    getTaskPriority taskHighFar < getTaskPriority taskLowNear ∧
    taskHighFar.status = "pending" ∧
    taskHighFar.priority = "high" ∧
    (PriorityQueue.extractMax (PriorityQueue.construct [taskHighFar, taskLowNear])).1 =
      some taskLowNear := by
  refine ⟨by decide, ⟨by decide, by decide⟩, ⟨by decide, by decide⟩, by decide, rfl, rfl, ?_⟩
  simp [PriorityQueue.construct, PriorityQueue.buildMaxHeap, PriorityQueue.buildLoop,
    PriorityQueue.extractMax, PriorityQueue.heapifyDown, PriorityQueue.largest,
    PriorityQueue.largestOfLeft, nth, swap, getTaskPriority, priorityWeight,
    PRIORITY_VALUES, taskHighFar, taskLowNear, mkTask]

/-- C2 amended: the priority term dominates the deadline term whenever the
two deadlines differ by less than the constant 1e15 milliseconds (about
31700 years, covering every realistic deadline spread); within equal
priority weight an earlier deadline always yields a strictly higher score;
and over any task set whose deadlines pairwise differ by less than 1e15,
the first task extracted from the constructed heap is high-priority
whenever a pending high-priority task exists. -/
theorem C2_amended :
    (∀ a b : Task, priorityWeight b < priorityWeight a →
      a.deadline - b.deadline < 1000000000000000 →
      getTaskPriority b < getTaskPriority a) ∧
    (∀ a b : Task, priorityWeight a = priorityWeight b → a.deadline < b.deadline →
      getTaskPriority b < getTaskPriority a) ∧
    (∀ (tasks : List Task) (t0 thigh : Task),
      (∀ a ∈ tasks, ∀ b ∈ tasks, a.deadline - b.deadline < 1000000000000000) →
      thigh ∈ tasks → thigh.status = "pending" → thigh.priority = "high" →
      (PriorityQueue.extractMax (PriorityQueue.construct tasks)).1 = some t0 →
      t0.priority = "high") := by
  refine ⟨?_, ?_, ?_⟩
  · intro a b hw hd
    unfold getTaskPriority
    omega
  · intro a b hw hd
    unfold getTaskPriority
    rw [hw]
    omega
  · intro tasks t0 thigh hspread hmem hstat hpri hext
    by_cases hc : PriorityQueue.construct tasks = []
    · rw [hc] at hext
      simp [PriorityQueue.extractMax] at hext
    · have ht0 : t0 = nth (PriorityQueue.construct tasks) 0 := by
        have h1 := (PriorityQueue.extractMax_cons_perm _ hc).1
        rw [hext] at h1
        exact (Option.some.inj h1)
      have hth_filter : thigh ∈ tasks.filter (fun t => t.status == "pending") :=
        List.mem_filter.mpr ⟨hmem, by simp [hstat]⟩
      have hth_c : thigh ∈ PriorityQueue.construct tasks :=
        (PriorityQueue.construct_perm tasks).mem_iff.mpr hth_filter
      obtain ⟨j, hj, hje⟩ := List.getElem_of_mem hth_c
      have hroot := PriorityQueue.root_max _ (PriorityQueue.construct_isMaxHeap tasks) j hj
      rw [nth_eq_getElem _ _ hj, hje] at hroot
      have hlen0 : 0 < (PriorityQueue.construct tasks).length := by
        cases hcc : PriorityQueue.construct tasks with
        | nil => exact absurd hcc hc
        | cons x xs => simp [hcc]
      have ht0_c : nth (PriorityQueue.construct tasks) 0 ∈ PriorityQueue.construct tasks := by
        rw [nth_eq_getElem _ _ hlen0]
        exact List.getElem_mem hlen0
      have ht0_tasks : nth (PriorityQueue.construct tasks) 0 ∈ tasks :=
        List.mem_of_mem_filter ((PriorityQueue.construct_perm tasks).mem_iff.mp ht0_c)
      have hw_high : priorityWeight thigh = 3 := (priorityWeight_eq_three_iff thigh).mpr hpri
      have hb0 := priorityWeight_bounds (nth (PriorityQueue.construct tasks) 0)
      have hspread1 := hspread thigh hmem _ ht0_tasks
      have hw0 : priorityWeight (nth (PriorityQueue.construct tasks) 0) = 3 := by
        unfold getTaskPriority at hroot
        omega
      rw [ht0]
      exact (priorityWeight_eq_three_iff _).mp hw0

/-- Witness for the amended C2: a nearby high-priority task outscores a
medium-priority one despite a later deadline. -/
theorem C2_amended_witness : getTaskPriority taskM0 < getTaskPriority taskH :=
  C2_amended.1 taskH taskM0 (by decide) (by decide)

/-- C3 fails on the code at an equal-priority overlapping pair: the emitted
recommendation names the task appearing first in the pairwise scan as the
candidate to reschedule, not the one appearing second. -/
theorem C3_counterexample :
    taskM0.priority = taskM30.priority ∧
    overlaps taskM0 taskM30 = true ∧
    (detectConflicts [taskM0, taskM30]).recommendations =
      [recommendationText taskM0 taskM30] ∧
    recommendationText taskM0 taskM30 ≠ recommendationText taskM30 taskM0 := by
  refine ⟨rfl, by decide, by decide, by decide⟩

/-- C3 amended: for every overlapping pair of pending tasks at scan indices
i < j, detectConflicts records both tasks' ids (each at most once, the
conflict set being duplicate-free by id) and emits the pair's
recommendation string; that string names the strictly lower-priority task
of the pair as the candidate to reschedule when both priorities are valid,
and names the task appearing first in the scan when the priority values
are equal (or the first task's value does not strictly exceed the
second's). -/
theorem C3_amended (tasks : List Task) (pending : List Task)
    (hpend : pending = tasks.filter (fun t => t.status == "pending"))
    (i j : Nat) (hij : i < j) (hj : j < pending.length)
    (hov : overlaps (nth pending i) (nth pending j) = true) :
    (nth pending i).id ∈ (detectConflicts tasks).conflictingTasks.map Task.id ∧
    (nth pending j).id ∈ (detectConflicts tasks).conflictingTasks.map Task.id ∧
    ((detectConflicts tasks).conflictingTasks.map Task.id).Nodup ∧
    conflictRecommendation (nth pending i) (nth pending j) ∈
      (detectConflicts tasks).recommendations ∧
    (∀ a b : Task, (PRIORITY_VALUES a.priority).isSome →
      (PRIORITY_VALUES b.priority).isSome → priorityWeight b < priorityWeight a →
      conflictRecommendation a b = recommendationText b a) ∧
    (∀ a b : Task, priorityWeight a ≤ priorityWeight b →
      conflictRecommendation a b = recommendationText a b) := by
  have hres : detectConflicts tasks =
      { hasConflict := decide (0 < (outerScan (tasks.filter
          (fun t => t.status == "pending")) ([], [])).1.length)
        conflictingTasks := (outerScan (tasks.filter
          (fun t => t.status == "pending")) ([], [])).1
        recommendations := (outerScan (tasks.filter
          (fun t => t.status == "pending")) ([], [])).2 } := rfl
  rw [hres, ← hpend]
  have hhit := outerScan_hit pending ([], []) i j hij hj hov
  have hnodup := outerScan_nodup pending ([], []) (by simp)
  refine ⟨hhit.1, hhit.2.1, hnodup, hhit.2.2, ?_, ?_⟩
  · intro a b hsa hsb hw
    obtain ⟨wa, hwa⟩ := Option.isSome_iff_exists.mp hsa
    obtain ⟨wb, hwb⟩ := Option.isSome_iff_exists.mp hsb
    have hwa' : priorityWeight a = wa := by rw [priorityWeight, hwa]; rfl
    have hwb' : priorityWeight b = wb := by rw [priorityWeight, hwb]; rfl
    rw [conflictRecommendation, if_pos]
    rw [hwa, hwb]
    simp only [jsGT, decide_eq_true_eq]
    omega
  · intro a b hle
    rw [conflictRecommendation, if_neg]
    intro hgt
    cases hva : PRIORITY_VALUES a.priority with
    | none => rw [hva] at hgt; simp [jsGT] at hgt
    | some wa =>
      cases hvb : PRIORITY_VALUES b.priority with
      | none => rw [hva, hvb] at hgt; simp [jsGT] at hgt
      | some wb =>
        rw [hva, hvb] at hgt
        simp only [jsGT, decide_eq_true_eq] at hgt
        have hwa' : priorityWeight a = wa := by rw [priorityWeight, hva]; rfl
        have hwb' : priorityWeight b = wb := by rw [priorityWeight, hvb]; rfl
        omega

/-- Witness for the amended C3 on a concrete equal-priority overlapping
pair: the pair's recommendation string is emitted. -/
theorem C3_amended_witness :
    conflictRecommendation (nth [taskM0, taskM30] 0) (nth [taskM0, taskM30] 1) ∈
      (detectConflicts [taskM0, taskM30]).recommendations :=
  (C3_amended [taskM0, taskM30] [taskM0, taskM30] (by decide) 0 1 (by decide)
    (by decide) (by decide)).2.2.2.1

/-- C7: the analytics buckets never overcount (completed + overdue +
pending is at most the total), the completion rate lies within 0 and 100,
equals completed over total times 100 when the total is positive, and is 0
when there are no tasks. -/
theorem C7_analytics_totals (tasks : List Task)
    (completionHistory : List CompletionRecord) (now : Int) :
    (calculateAnalytics tasks completionHistory now).completedTasks +
        (calculateAnalytics tasks completionHistory now).overdueTasks +
        (calculateAnalytics tasks completionHistory now).pendingTasks ≤
      (calculateAnalytics tasks completionHistory now).totalTasks ∧
    0 ≤ (calculateAnalytics tasks completionHistory now).completionRate ∧
    (calculateAnalytics tasks completionHistory now).completionRate ≤ 100 ∧
    (0 < (calculateAnalytics tasks completionHistory now).totalTasks →
      (calculateAnalytics tasks completionHistory now).completionRate =
        ((calculateAnalytics tasks completionHistory now).completedTasks : ℚ) /
          ((calculateAnalytics tasks completionHistory now).totalTasks : ℚ) * 100) ∧
    ((calculateAnalytics tasks completionHistory now).totalTasks = 0 →
      (calculateAnalytics tasks completionHistory now).completionRate = 0) := by
  simp only [calculateAnalytics]
  have hex : ∀ a : Task,
      ((a.status == "completed") = true →
        (a.status == "overdue" || (a.status == "pending" && decide (a.deadline < now))) = false ∧
        (a.status == "pending" && decide (a.deadline ≥ now)) = false) ∧
      ((a.status == "overdue" || (a.status == "pending" && decide (a.deadline < now))) = true →
        (a.status == "pending" && decide (a.deadline ≥ now)) = false) := by
    intro a
    constructor
    · intro h1
      rw [beq_iff_eq] at h1
      constructor <;> simp [h1]
    · intro h2
      simp only [Bool.or_eq_true, Bool.and_eq_true, beq_iff_eq, decide_eq_true_eq] at h2
      rcases h2 with h2 | ⟨h2, hd⟩
      · simp [h2]
      · simp [h2]
        omega
  have hsum := filter_three_length_le tasks
    (fun t => t.status == "completed")
    (fun t => t.status == "overdue" || (t.status == "pending" && decide (t.deadline < now)))
    (fun t => t.status == "pending" && decide (t.deadline ≥ now)) hex
  have hcle : (tasks.filter (fun t => t.status == "completed")).length ≤ tasks.length :=
    List.length_filter_le _ _
  refine ⟨hsum, ?_, ?_, ?_, ?_⟩
  · split_ifs with hpos
    · positivity
    · exact le_refl 0
  · split_ifs with hpos
    · have h1 : ((tasks.filter (fun t => t.status == "completed")).length : ℚ) /
          (tasks.length : ℚ) ≤ 1 := by
        rw [div_le_one (by positivity)]
        exact_mod_cast hcle
      linarith
    · norm_num
  · intro hpos
    rw [if_pos hpos]
  · intro hzero
    rw [if_neg (by omega)]

/-- Witness for C7 on a concrete one-task snapshot with a positive total. -/
theorem C7_analytics_totals_witness :
    0 < (calculateAnalytics [taskM0] [] 0).totalTasks ∧
    (calculateAnalytics [taskM0] [] 0).completionRate =
      ((calculateAnalytics [taskM0] [] 0).completedTasks : ℚ) /
        ((calculateAnalytics [taskM0] [] 0).totalTasks : ℚ) * 100 :=
  ⟨by decide, (C7_analytics_totals [taskM0] [] 0).2.2.2.1 (by decide)⟩

end TS
